import Mathlib

/-!
Verification of the distributed edge-boundary computation
(`analytical_engine/apps/boundary/edge_boundary.h`).

The embedding models global vertex identifiers (gids) and external
identifiers (oids) as natural numbers.  A `Graph` supplies the vertex
list, the outgoing adjacency (already translated to gids, mirroring
`Vertex2Gid` applied to each neighbor), and the two identifier
translation maps (`Oid2Gid`, which can fail, and `Gid2Oid`).  A
`Fragmentation` assigns every gid to the fragment owning it as an inner
vertex; `InnerVertexGid2Vertex` succeeds on a fragment exactly when the
gid is a graph vertex owned by that fragment.
-/

namespace EdgeBoundary

structure Graph where
  vertices : List Nat
  adj : Nat → List Nat
  oid2gid : Nat → Option Nat
  gid2oid : Nat → Nat

structure Fragmentation where
  owner : Nat → Nat

/-- One step of the oid-resolution loop: `if (frag.Oid2Gid(oid, gid)) node_gid_set.insert(gid)`. -/
def resolveStep (g : Graph) (s : Finset Nat) (o : Nat) : Finset Nat :=
  match g.oid2gid o with
  | some gid => insert gid s
  | none => s

/-- Translation of a parsed oid array to the set of resolved gids
(the loops over `node_array_1` / `node_array_2` in `PEval`). -/
def resolve (g : Graph) (oids : List Nat) : Finset Nat :=
  oids.foldl (resolveStep g) ∅

/-- Resolution of the second subset: `node_gid_set_2` stays empty when the
input string `ctx.nbunch2` is empty (`none`), otherwise the parsed array is resolved. -/
def resolve2 (g : Graph) (nb2 : Option (List Nat)) : Finset Nat :=
  match nb2 with
  | none => ∅
  | some l => resolve g l

/-- The membership test applied to a neighbor gid in the scan loop:
complement rule when `node_gid_set_2` is empty, targeted rule otherwise. -/
def includeNeighbor (s1 s2 : Finset Nat) (n : Nat) : Bool :=
  if s2 = ∅ then decide (n ∉ s1) else decide (n ∈ s2)

/-- Edges contributed by the scan of one inner vertex `u`: for each
outgoing neighbor passing the membership test, the pair `(u, n)` is inserted. -/
def scanInner (g : Graph) (s1 s2 : Finset Nat) (u : Nat) : Finset (Nat × Nat) :=
  (((g.adj u).filter fun n => includeNeighbor s1 s2 n).map fun n => (u, n)).toFinset

/-- Success of `frag.InnerVertexGid2Vertex(gid, u)` on fragment `fid`. -/
def isInner (g : Graph) (P : Fragmentation) (fid u : Nat) : Bool :=
  decide (u ∈ g.vertices) && decide (P.owner u = fid)

/-- The Partial Boundary discovered locally by fragment `fid`: the scan over
`node_gid_set` accumulating `ctx.boundary.insert(make_pair(gid, vgid))`. -/
def fragBoundary (g : Graph) (P : Fragmentation) (fid : Nat) (s1 s2 : Finset Nat) :
    Finset (Nat × Nat) :=
  s1.biUnion fun u => if isInner g P fid u then scanInner g s1 s2 u else ∅

/-- The coordinator merge loop after `AllGather`: starting from its own
`ctx.boundary` (`own`), fragment 0 inserts `all_boundary[i]` for `i = 1 .. numFrags - 1`. -/
def gatherMerge (g : Graph) (P : Fragmentation) (numFrags : Nat) (s1 s2 : Finset Nat)
    (own : Finset (Nat × Nat)) : Finset (Nat × Nat) :=
  ((List.range numFrags).drop 1).foldl (fun acc i => acc ∪ fragBoundary g P i s1 s2) own

/-- The iteration order of `std::set<std::pair<vid_t, vid_t>>`: lexicographic
order on pairs. -/
def pairLe (a b : Nat × Nat) : Prop :=
  a.1 < b.1 ∨ (a.1 = b.1 ∧ a.2 ≤ b.2)

instance : DecidableRel pairLe := fun a b => by
  unfold pairLe
  exact inferInstance

instance : IsTrans (Nat × Nat) pairLe := by
  constructor
  intro a b c hab hbc
  unfold pairLe at hab hbc ⊢
  omega

instance : IsAntisymm (Nat × Nat) pairLe := by
  constructor
  intro a b hab hba
  unfold pairLe at hab hba
  have h1 : a.1 = b.1 := by omega
  have h2 : a.2 = b.2 := by omega
  exact Prod.ext h1 h2

instance : IsTotal (Nat × Nat) pairLe := by
  constructor
  intro a b
  unfold pairLe
  omega

/-- Iteration of the `std::set` holding the Merged Boundary. -/
def sortedPairs (b : Finset (Nat × Nat)) : List (Nat × Nat) :=
  b.sort pairLe

/-- The result materialization `writeToCtx`: translate every pair back to
oids into a flat `data` vector and record shape `{data.size() / 2, 2}`.
Returns `(data, shape)`. -/
def writeToCtx (g : Graph) (b : Finset (Nat × Nat)) : List Nat × List Nat :=
  let data := (sortedPairs b).foldl (fun d e => d ++ [g.gid2oid e.1, g.gid2oid e.2]) []
  (data, [data.length / 2, 2])

/-- The computation Context: the two JSON input strings (`nbunch2 = none`
models the empty string, which is never parsed), the working boundary set,
and the output slot (`data` with its `shape`) filled by `ctx.assign`. -/
structure Context where
  nbunch1 : List Nat
  nbunch2 : Option (List Nat)
  boundary : Finset (Nat × Nat)
  data : List Nat
  shape : List Nat

/-- The initial phase `PEval` as observed by the fragment `fid` among
`numFrags` fragments: resolve the subsets, scan the inner vertices,
all-gather, and on the coordinator only merge the peers' Partial
Boundaries and materialize the result. -/
def PEval (g : Graph) (P : Fragmentation) (numFrags fid : Nat) (ctx : Context) : Context :=
  let s1 := resolve g ctx.nbunch1
  let s2 := resolve2 g ctx.nbunch2
  let afterScan := ctx.boundary ∪ fragBoundary g P fid s1 s2
  if fid = 0 then
    let merged := gatherMerge g P numFrags s1 s2 afterScan
    let w := writeToCtx g merged
    { ctx with boundary := merged, data := w.1, shape := w.2 }
  else
    { ctx with boundary := afterScan }

/-- The incremental phase `IncEval`: its body is empty, so the context is
untouched and no messages are produced. -/
def IncEval (ctx : Context) : Context × List Nat :=
  (ctx, [])

/-- Modelled from the spec: the superstep driver (external to this
repository) repeatedly invokes the incremental phase for as long as any
fragment reports pending work (active messages), counting the
synchronization rounds it performs; `fuel` bounds the rounds. -/
def driverLoop (fuel : Nat) (ctx : Context) : Nat × Context :=
  match fuel with
  | 0 => (0, ctx)
  | Nat.succ f =>
    let r := IncEval ctx
    if r.2.isEmpty then (1, r.1)
    else
      let rest := driverLoop f r.1
      (rest.1 + 1, rest.2)

/-- Rows of the Result Array: each Merged-Boundary pair translated back to
oids, in the iteration order of the `std::set`. -/
def rows (g : Graph) (b : Finset (Nat × Nat)) : List (Nat × Nat) :=
  (sortedPairs b).map fun e => (g.gid2oid e.1, g.gid2oid e.2)

/-- Example graph from the spec: directed edges (1,2), (1,3), (2,3), (4,1);
each vertex gid `v` carries the external identifier `v + 10`. -/
def gEx : Graph where
  vertices := [1, 2, 3, 4]
  adj := fun v => if v = 1 then [2, 3] else if v = 2 then [3] else if v = 4 then [1] else []
  oid2gid := fun o => if 11 ≤ o ∧ o ≤ 14 then some (o - 10) else none
  gid2oid := fun v => v + 10

/-- Example fragmentation splitting the vertices over two fragments. -/
def pEx : Fragmentation where
  owner := fun v => if v ≤ 2 then 0 else 1

/-- Example fragmentation placing every vertex on fragment 0. -/
def qEx : Fragmentation where
  owner := fun _ => 0

/-- Example context: subset1 resolves to gids 1 and 2, subset2 absent. -/
def ctxEx : Context where
  nbunch1 := [11, 12]
  nbunch2 := none
  boundary := ∅
  data := []
  shape := []

/-- Example context with a second subset resolving to gid 3. -/
def ctxEx2 : Context where
  nbunch1 := [11, 12]
  nbunch2 := some [13]
  boundary := ∅
  data := []
  shape := []

lemma mem_resolve_foldl (g : Graph) (l : List Nat) (s : Finset Nat) (x : Nat) :
    x ∈ l.foldl (resolveStep g) s ↔ x ∈ s ∨ ∃ o ∈ l, g.oid2gid o = some x := by
  induction l generalizing s with
  | nil => simp
  | cons o t ih =>
    rw [List.foldl_cons, ih]
    unfold resolveStep
    cases h : g.oid2gid o with
    | none =>
      simp only [List.mem_cons]
      constructor
      · rintro (hx | ⟨o', ho', hr⟩)
        · exact Or.inl hx
        · exact Or.inr ⟨o', Or.inr ho', hr⟩
      · rintro (hx | ⟨o', rfl | ho', hr⟩)
        · exact Or.inl hx
        · rw [h] at hr; cases hr
        · exact Or.inr ⟨o', ho', hr⟩
    | some gid =>
      simp only [Finset.mem_insert, List.mem_cons]
      constructor
      · rintro ((rfl | hx) | ⟨o', ho', hr⟩)
        · exact Or.inr ⟨o, Or.inl rfl, h⟩
        · exact Or.inl hx
        · exact Or.inr ⟨o', Or.inr ho', hr⟩
      · rintro (hx | ⟨o', rfl | ho', hr⟩)
        · exact Or.inl (Or.inr hx)
        · rw [h] at hr
          exact Or.inl (Or.inl (Option.some.inj hr).symm)
        · exact Or.inr ⟨o', ho', hr⟩

lemma mem_resolve (g : Graph) (l : List Nat) (x : Nat) :
    x ∈ resolve g l ↔ ∃ o ∈ l, g.oid2gid o = some x := by
  unfold resolve
  rw [mem_resolve_foldl]
  simp

lemma mem_scanInner (g : Graph) (s1 s2 : Finset Nat) (u a b : Nat) :
    (a, b) ∈ scanInner g s1 s2 u ↔
      a = u ∧ b ∈ g.adj u ∧ includeNeighbor s1 s2 b = true := by
  unfold scanInner
  simp only [List.mem_toFinset, List.mem_map, List.mem_filter, Prod.mk.injEq]
  constructor
  · rintro ⟨n, ⟨hn, hinc⟩, rfl, rfl⟩
    exact ⟨rfl, hn, hinc⟩
  · rintro ⟨rfl, hb, hinc⟩
    exact ⟨b, ⟨hb, hinc⟩, rfl, rfl⟩

lemma mem_fragBoundary (g : Graph) (P : Fragmentation) (fid : Nat) (s1 s2 : Finset Nat)
    (a b : Nat) :
    (a, b) ∈ fragBoundary g P fid s1 s2 ↔
      a ∈ s1 ∧ a ∈ g.vertices ∧ P.owner a = fid ∧ b ∈ g.adj a ∧
        includeNeighbor s1 s2 b = true := by
  unfold fragBoundary
  rw [Finset.mem_biUnion]
  constructor
  · rintro ⟨u, hu, hmem⟩
    by_cases h : isInner g P fid u = true
    · rw [if_pos h, mem_scanInner] at hmem
      obtain ⟨rfl, hb, hinc⟩ := hmem
      unfold isInner at h
      simp only [Bool.and_eq_true, decide_eq_true_eq] at h
      exact ⟨hu, h.1, h.2, hb, hinc⟩
    · rw [if_neg h] at hmem
      exact absurd hmem (Finset.not_mem_empty _)
  · rintro ⟨ha, hv, how, hb, hinc⟩
    refine ⟨a, ha, ?_⟩
    have h : isInner g P fid a = true := by
      unfold isInner
      simp [hv, how]
    rw [if_pos h, mem_scanInner]
    exact ⟨rfl, hb, hinc⟩

lemma mem_foldl_union (f : Nat → Finset (Nat × Nat)) (l : List Nat)
    (init : Finset (Nat × Nat)) (p : Nat × Nat) :
    p ∈ l.foldl (fun acc i => acc ∪ f i) init ↔ p ∈ init ∨ ∃ i ∈ l, p ∈ f i := by
  induction l generalizing init with
  | nil => simp
  | cons j t ih =>
    rw [List.foldl_cons, ih]
    simp only [Finset.mem_union, List.mem_cons]
    constructor
    · rintro ((hp | hp) | ⟨i, hi, hp⟩)
      · exact Or.inl hp
      · exact Or.inr ⟨j, Or.inl rfl, hp⟩
      · exact Or.inr ⟨i, Or.inr hi, hp⟩
    · rintro (hp | ⟨i, rfl | hi, hp⟩)
      · exact Or.inl (Or.inl hp)
      · exact Or.inl (Or.inr hp)
      · exact Or.inr ⟨i, hi, hp⟩

lemma mem_drop_one_range (n i : Nat) :
    i ∈ (List.range n).drop 1 ↔ 1 ≤ i ∧ i < n := by
  cases n with
  | zero => simp
  | succ m =>
    rw [List.range_succ_eq_map]
    simp only [List.drop_succ_cons, List.drop_zero, List.mem_map, List.mem_range]
    constructor
    · rintro ⟨a, ha, rfl⟩
      omega
    · intro h
      exact ⟨i - 1, by omega, by omega⟩

lemma mem_gatherMerge (g : Graph) (P : Fragmentation) (numFrags : Nat)
    (s1 s2 : Finset Nat) (own : Finset (Nat × Nat)) (p : Nat × Nat) :
    p ∈ gatherMerge g P numFrags s1 s2 own ↔
      p ∈ own ∨ ∃ i, 1 ≤ i ∧ i < numFrags ∧ p ∈ fragBoundary g P i s1 s2 := by
  unfold gatherMerge
  rw [mem_foldl_union]
  constructor
  · rintro (h | ⟨i, hi, hp⟩)
    · exact Or.inl h
    · rw [mem_drop_one_range] at hi
      exact Or.inr ⟨i, hi.1, hi.2, hp⟩
  · rintro (h | ⟨i, h1, h2, hp⟩)
    · exact Or.inl h
    · exact Or.inr ⟨i, (mem_drop_one_range _ _).mpr ⟨h1, h2⟩, hp⟩

lemma PEval_zero_eq (g : Graph) (P : Fragmentation) (numFrags : Nat) (ctx : Context) :
    PEval g P numFrags 0 ctx =
      { ctx with
        boundary := gatherMerge g P numFrags (resolve g ctx.nbunch1)
          (resolve2 g ctx.nbunch2)
          (ctx.boundary ∪
            fragBoundary g P 0 (resolve g ctx.nbunch1) (resolve2 g ctx.nbunch2)),
        data := (writeToCtx g (gatherMerge g P numFrags (resolve g ctx.nbunch1)
          (resolve2 g ctx.nbunch2)
          (ctx.boundary ∪
            fragBoundary g P 0 (resolve g ctx.nbunch1) (resolve2 g ctx.nbunch2)))).1,
        shape := (writeToCtx g (gatherMerge g P numFrags (resolve g ctx.nbunch1)
          (resolve2 g ctx.nbunch2)
          (ctx.boundary ∪
            fragBoundary g P 0 (resolve g ctx.nbunch1) (resolve2 g ctx.nbunch2)))).2 } := by
  rfl

lemma PEval_ne_zero_eq (g : Graph) (P : Fragmentation) (numFrags fid : Nat)
    (ctx : Context) (h : fid ≠ 0) :
    PEval g P numFrags fid ctx =
      { ctx with
        boundary := ctx.boundary ∪
          fragBoundary g P fid (resolve g ctx.nbunch1) (resolve2 g ctx.nbunch2) } := by
  unfold PEval
  rw [if_neg h]

lemma mem_PEval_zero_boundary (g : Graph) (P : Fragmentation) (numFrags : Nat)
    (ctx : Context) (a b : Nat)
    (hcov : ∀ v ∈ g.vertices, P.owner v < numFrags) :
    (a, b) ∈ (PEval g P numFrags 0 ctx).boundary ↔
      (a, b) ∈ ctx.boundary ∨
        (a ∈ resolve g ctx.nbunch1 ∧ a ∈ g.vertices ∧ b ∈ g.adj a ∧
          includeNeighbor (resolve g ctx.nbunch1) (resolve2 g ctx.nbunch2) b = true) := by
  rw [PEval_zero_eq]
  simp only
  rw [mem_gatherMerge]
  simp only [Finset.mem_union, mem_fragBoundary]
  constructor
  · rintro ((h | ⟨ha, hv, _, hb, hinc⟩) | ⟨i, _, _, ha, hv, _, hb, hinc⟩)
    · exact Or.inl h
    · exact Or.inr ⟨ha, hv, hb, hinc⟩
    · exact Or.inr ⟨ha, hv, hb, hinc⟩
  · rintro (h | ⟨ha, hv, hb, hinc⟩)
    · exact Or.inl (Or.inl h)
    · by_cases h0 : P.owner a = 0
      · exact Or.inl (Or.inr ⟨ha, hv, h0, hb, hinc⟩)
      · exact Or.inr ⟨P.owner a, by omega, hcov a hv, ha, hv, rfl, hb, hinc⟩

lemma resolve_drop_none (g : Graph) (l1 l2 : List Nat) (o : Nat)
    (ho : g.oid2gid o = none) :
    resolve g (l1 ++ o :: l2) = resolve g (l1 ++ l2) := by
  unfold resolve
  rw [List.foldl_append, List.foldl_append, List.foldl_cons]
  congr 1
  unfold resolveStep
  rw [ho]

lemma resolve_all_none (g : Graph) (l : List Nat)
    (ho : ∀ o ∈ l, g.oid2gid o = none) : resolve g l = ∅ := by
  rw [Finset.eq_empty_iff_forall_not_mem]
  intro x hx
  rw [mem_resolve] at hx
  obtain ⟨o, hol, hr⟩ := hx
  rw [ho o hol] at hr
  exact Option.noConfusion hr

lemma foldl_append_pairs (f h : (Nat × Nat) → Nat) (l : List (Nat × Nat)) (acc : List Nat) :
    l.foldl (fun d e => d ++ [f e, h e]) acc = acc ++ l.flatMap (fun e => [f e, h e]) := by
  induction l generalizing acc with
  | nil => simp
  | cons e t ih =>
    rw [List.foldl_cons, ih, List.flatMap_cons]
    simp [List.append_assoc]

lemma length_flatMap_pairs (f h : (Nat × Nat) → Nat) (l : List (Nat × Nat)) :
    (l.flatMap fun e => [f e, h e]).length = 2 * l.length := by
  induction l with
  | nil => rfl
  | cons e t ih =>
    rw [List.flatMap_cons]
    simp only [List.length_append, List.length_cons, List.length_nil, ih]
    omega

lemma flatMap_pairs_getElem_even (f h : (Nat × Nat) → Nat)
    (l : List (Nat × Nat)) (i : Nat) :
    (l.flatMap fun e => [f e, h e])[2 * i]? = l[i]?.map f := by
  induction l generalizing i with
  | nil => simp
  | cons e t ih =>
    rw [List.flatMap_cons]
    cases i with
    | zero => simp
    | succ j =>
      have h2 : 2 * (j + 1) = 2 * j + 1 + 1 := by omega
      rw [h2]
      simp only [List.cons_append, List.nil_append, List.getElem?_cons_succ]
      exact ih j

lemma flatMap_pairs_getElem_odd (f h : (Nat × Nat) → Nat)
    (l : List (Nat × Nat)) (i : Nat) :
    (l.flatMap fun e => [f e, h e])[2 * i + 1]? = l[i]?.map h := by
  induction l generalizing i with
  | nil => simp
  | cons e t ih =>
    rw [List.flatMap_cons]
    cases i with
    | zero => simp
    | succ j =>
      have h2 : 2 * (j + 1) + 1 = 2 * j + 1 + 1 + 1 := by omega
      rw [h2]
      simp only [List.cons_append, List.nil_append, List.getElem?_cons_succ]
      exact ih j

lemma writeToCtx_data (g : Graph) (b : Finset (Nat × Nat)) :
    (writeToCtx g b).1 =
      (sortedPairs b).flatMap fun e => [g.gid2oid e.1, g.gid2oid e.2] := by
  unfold writeToCtx
  simp only
  rw [foldl_append_pairs]
  simp

lemma writeToCtx_data_length (g : Graph) (b : Finset (Nat × Nat)) :
    (writeToCtx g b).1.length = 2 * b.card := by
  rw [writeToCtx_data, length_flatMap_pairs]
  unfold sortedPairs
  rw [Finset.length_sort]

lemma writeToCtx_shape (g : Graph) (b : Finset (Nat × Nat)) :
    (writeToCtx g b).2 = [b.card, 2] := by
  show [(writeToCtx g b).1.length / 2, 2] = [b.card, 2]
  rw [writeToCtx_data_length]
  congr 1
  omega

lemma PEval_zero_data (g : Graph) (P : Fragmentation) (numFrags : Nat) (ctx : Context) :
    (PEval g P numFrags 0 ctx).data =
      (writeToCtx g (PEval g P numFrags 0 ctx).boundary).1 := rfl

lemma PEval_zero_shape (g : Graph) (P : Fragmentation) (numFrags : Nat) (ctx : Context) :
    (PEval g P numFrags 0 ctx).shape =
      (writeToCtx g (PEval g P numFrags 0 ctx).boundary).2 := rfl

/-- C1 (complement mode): with subset2 empty, a pair is in the coordinator's
final boundary exactly when it is an edge of the graph whose source lies in
the resolved Subset-1 and whose destination does not. -/
theorem C1_complement_mode (g : Graph) (P : Fragmentation) (numFrags : Nat)
    (ctx : Context) (u v : Nat)
    (hcov : ∀ w ∈ g.vertices, P.owner w < numFrags)
    (hb : ctx.boundary = ∅) (h2 : ctx.nbunch2 = none) :
    ((u, v) ∈ (PEval g P numFrags 0 ctx).boundary ↔
      u ∈ g.vertices ∧ v ∈ g.adj u ∧
        u ∈ resolve g ctx.nbunch1 ∧ v ∉ resolve g ctx.nbunch1) := by
  rw [mem_PEval_zero_boundary g P numFrags ctx u v hcov, hb, h2]
  simp only [Finset.not_mem_empty, false_or]
  have hs2 : resolve2 g none = (∅ : Finset Nat) := rfl
  rw [hs2]
  have hinc : ∀ n, includeNeighbor (resolve g ctx.nbunch1) ∅ n =
      decide (n ∉ resolve g ctx.nbunch1) := by
    intro n
    unfold includeNeighbor
    rw [if_pos rfl]
  rw [hinc]
  simp only [decide_eq_true_eq]
  tauto

theorem C1_complement_mode_witness :
    (1, 3) ∈ (PEval gEx pEx 2 0 ctxEx).boundary ↔
      1 ∈ gEx.vertices ∧ 3 ∈ gEx.adj 1 ∧
        1 ∈ resolve gEx ctxEx.nbunch1 ∧ 3 ∉ resolve gEx ctxEx.nbunch1 :=
  C1_complement_mode gEx pEx 2 ctxEx 1 3 (by decide) rfl rfl

/-- C2 (targeted mode): with a second subset resolving to a non-empty gid set,
a pair is in the coordinator's final boundary exactly when it is an edge of
the graph whose source lies in the resolved Subset-1 and whose destination
lies in the resolved Subset-2, with no requirement on Subset-1 membership of
the destination. -/
theorem C2_targeted_mode (g : Graph) (P : Fragmentation) (numFrags : Nat)
    (ctx : Context) (l : List Nat) (u v : Nat)
    (hcov : ∀ w ∈ g.vertices, P.owner w < numFrags)
    (hb : ctx.boundary = ∅) (h2 : ctx.nbunch2 = some l)
    (hne : resolve g l ≠ ∅) :
    ((u, v) ∈ (PEval g P numFrags 0 ctx).boundary ↔
      u ∈ g.vertices ∧ v ∈ g.adj u ∧
        u ∈ resolve g ctx.nbunch1 ∧ v ∈ resolve g l) := by
  rw [mem_PEval_zero_boundary g P numFrags ctx u v hcov, hb, h2]
  simp only [Finset.not_mem_empty, false_or]
  have hs2 : resolve2 g (some l) = resolve g l := rfl
  rw [hs2]
  have hinc : ∀ n, includeNeighbor (resolve g ctx.nbunch1) (resolve g l) n =
      decide (n ∈ resolve g l) := by
    intro n
    unfold includeNeighbor
    rw [if_neg hne]
  rw [hinc]
  simp only [decide_eq_true_eq]
  tauto

theorem C2_targeted_mode_witness :
    (1, 3) ∈ (PEval gEx pEx 2 0 ctxEx2).boundary ↔
      1 ∈ gEx.vertices ∧ 3 ∈ gEx.adj 1 ∧
        1 ∈ resolve gEx ctxEx2.nbunch1 ∧ 3 ∈ resolve gEx [13] :=
  C2_targeted_mode gEx pEx 2 ctxEx2 [13] 1 3 (by decide) rfl rfl (by decide)

/-- C3: after the gather, the coordinator's boundary equals the union of the
Partial Boundaries of all fragments, its own included. -/
theorem C3_coordinator_merged (g : Graph) (P : Fragmentation) (numFrags : Nat)
    (ctx : Context) (hn : 0 < numFrags) (hb : ctx.boundary = ∅) :
    (PEval g P numFrags 0 ctx).boundary =
      (Finset.range numFrags).biUnion
        (fun i => fragBoundary g P i (resolve g ctx.nbunch1) (resolve2 g ctx.nbunch2)) := by
  ext p
  rw [PEval_zero_eq]
  simp only
  rw [mem_gatherMerge, hb]
  simp only [Finset.empty_union, Finset.mem_biUnion, Finset.mem_range]
  constructor
  · rintro (h | ⟨i, _, h2, hp⟩)
    · exact ⟨0, hn, h⟩
    · exact ⟨i, h2, hp⟩
  · rintro ⟨i, hi, hp⟩
    by_cases h0 : i = 0
    · subst h0
      exact Or.inl hp
    · exact Or.inr ⟨i, by omega, hi, hp⟩

theorem C3_coordinator_merged_witness :
    (PEval gEx pEx 2 0 ctxEx).boundary =
      (Finset.range 2).biUnion
        (fun i => fragBoundary gEx pEx i (resolve gEx ctxEx.nbunch1)
          (resolve2 gEx ctxEx.nbunch2)) :=
  C3_coordinator_merged gEx pEx 2 ctxEx (by omega) rfl

/-- C4: the initial phase on a non-coordinator fragment leaves the output
slot untouched and ends with the boundary equal to exactly the locally
discovered Partial Boundary, with no peer contribution retained. -/
theorem C4_non_coordinator_frame (g : Graph) (P : Fragmentation)
    (numFrags fid : Nat) (ctx : Context) (h : fid ≠ 0) (hb : ctx.boundary = ∅) :
    (PEval g P numFrags fid ctx).data = ctx.data ∧
    (PEval g P numFrags fid ctx).shape = ctx.shape ∧
    (PEval g P numFrags fid ctx).boundary =
      fragBoundary g P fid (resolve g ctx.nbunch1) (resolve2 g ctx.nbunch2) := by
  rw [PEval_ne_zero_eq g P numFrags fid ctx h, hb]
  exact ⟨rfl, rfl, Finset.empty_union _⟩

theorem C4_non_coordinator_frame_witness :
    (PEval gEx pEx 2 1 ctxEx).data = ctxEx.data ∧
    (PEval gEx pEx 2 1 ctxEx).shape = ctxEx.shape ∧
    (PEval gEx pEx 2 1 ctxEx).boundary =
      fragBoundary gEx pEx 1 (resolve gEx ctxEx.nbunch1) (resolve2 gEx ctxEx.nbunch2) :=
  C4_non_coordinator_frame gEx pEx 2 1 ctxEx (by decide) rfl

/-- C5: the coordinator materializes the Merged Boundary as a row-major flat
oid sequence: the recorded shape is [edge_count, 2] with edge_count the
number of boundary pairs, the data holds 2·edge_count entries, and row i is
the oid translation of the i-th boundary pair (source then destination). -/
theorem C5_materialization (g : Graph) (P : Fragmentation) (numFrags : Nat)
    (ctx : Context) :
    (PEval g P numFrags 0 ctx).shape = [(PEval g P numFrags 0 ctx).boundary.card, 2] ∧
    (PEval g P numFrags 0 ctx).data.length =
      2 * (PEval g P numFrags 0 ctx).boundary.card ∧
    ∀ i : Nat,
      (PEval g P numFrags 0 ctx).data[2 * i]? =
        ((sortedPairs (PEval g P numFrags 0 ctx).boundary)[i]?.map
          fun e => g.gid2oid e.1) ∧
      (PEval g P numFrags 0 ctx).data[2 * i + 1]? =
        ((sortedPairs (PEval g P numFrags 0 ctx).boundary)[i]?.map
          fun e => g.gid2oid e.2) := by
  refine ⟨?_, ?_, ?_⟩
  · rw [PEval_zero_shape, writeToCtx_shape]
  · rw [PEval_zero_data, writeToCtx_data_length]
  · intro i
    rw [PEval_zero_data, writeToCtx_data]
    exact ⟨flatMap_pairs_getElem_even _ _ _ i, flatMap_pairs_getElem_odd _ _ _ i⟩

/-- C6: boundaries are sets of pairs by construction, and since gid-to-oid
translation is injective no two rows of the Result Array are equal; the flat
data is exactly the concatenation of those rows. -/
theorem C6_no_duplicate_rows (g : Graph) (P : Fragmentation) (numFrags : Nat)
    (ctx : Context) (hinj : Function.Injective g.gid2oid) :
    (rows g (PEval g P numFrags 0 ctx).boundary).Nodup ∧
    (PEval g P numFrags 0 ctx).data =
      (rows g (PEval g P numFrags 0 ctx).boundary).flatMap fun r => [r.1, r.2] := by
  constructor
  · unfold rows
    refine List.Nodup.map ?_ ?_
    · intro a b hab
      simp only [Prod.mk.injEq] at hab
      exact Prod.ext (hinj hab.1) (hinj hab.2)
    · unfold sortedPairs
      exact Finset.sort_nodup _ _
  · rw [PEval_zero_data, writeToCtx_data]
    unfold rows
    rw [List.flatMap_map]

theorem C6_no_duplicate_rows_witness :
    (rows gEx (PEval gEx pEx 2 0 ctxEx).boundary).Nodup ∧
    (PEval gEx pEx 2 0 ctxEx).data =
      (rows gEx (PEval gEx pEx 2 0 ctxEx).boundary).flatMap fun r => [r.1, r.2] :=
  C6_no_duplicate_rows gEx pEx 2 ctxEx
    (fun a b hab => by
      have h : a + 10 = b + 10 := hab
      omega)

/-- C7: an external identifier whose translation fails is silently dropped:
inserting it anywhere into subset1 changes neither the boundary nor the
output of any fragment, and the computation still completes. -/
theorem C7_unresolvable_oid_dropped (g : Graph) (P : Fragmentation)
    (numFrags fid o : Nat) (l1 l2 : List Nat) (ctx : Context)
    (ho : g.oid2gid o = none) :
    ((PEval g P numFrags fid { ctx with nbunch1 := l1 ++ o :: l2 }).boundary =
      (PEval g P numFrags fid { ctx with nbunch1 := l1 ++ l2 }).boundary) ∧
    ((PEval g P numFrags fid { ctx with nbunch1 := l1 ++ o :: l2 }).data =
      (PEval g P numFrags fid { ctx with nbunch1 := l1 ++ l2 }).data) ∧
    ((PEval g P numFrags fid { ctx with nbunch1 := l1 ++ o :: l2 }).shape =
      (PEval g P numFrags fid { ctx with nbunch1 := l1 ++ l2 }).shape) := by
  have hres : resolve g (l1 ++ o :: l2) = resolve g (l1 ++ l2) :=
    resolve_drop_none g l1 l2 o ho
  unfold PEval
  simp only [hres]
  by_cases hf : fid = 0 <;> simp [hf]

theorem C7_unresolvable_oid_dropped_witness :
    ((PEval gEx pEx 2 0 { ctxEx with nbunch1 := [11] ++ 99 :: [12] }).boundary =
      (PEval gEx pEx 2 0 { ctxEx with nbunch1 := [11] ++ [12] }).boundary) ∧
    ((PEval gEx pEx 2 0 { ctxEx with nbunch1 := [11] ++ 99 :: [12] }).data =
      (PEval gEx pEx 2 0 { ctxEx with nbunch1 := [11] ++ [12] }).data) ∧
    ((PEval gEx pEx 2 0 { ctxEx with nbunch1 := [11] ++ 99 :: [12] }).shape =
      (PEval gEx pEx 2 0 { ctxEx with nbunch1 := [11] ++ [12] }).shape) :=
  C7_unresolvable_oid_dropped gEx pEx 2 0 99 [11] [12] ctxEx (by decide)

/-- C8: partition independence: two runs over different fragmentations of the
same graph with the same inputs produce identical coordinator results. -/
theorem C8_partition_independence (g : Graph) (P Q : Fragmentation) (n m : Nat)
    (ctx : Context)
    (hP : ∀ v ∈ g.vertices, P.owner v < n)
    (hQ : ∀ v ∈ g.vertices, Q.owner v < m) :
    PEval g P n 0 ctx = PEval g Q m 0 ctx := by
  have hb : (PEval g P n 0 ctx).boundary = (PEval g Q m 0 ctx).boundary := by
    ext ⟨a, b⟩
    rw [mem_PEval_zero_boundary g P n ctx a b hP,
      mem_PEval_zero_boundary g Q m ctx a b hQ]
  have key := hb
  rw [PEval_zero_eq g P n ctx, PEval_zero_eq g Q m ctx] at key
  simp only at key
  rw [PEval_zero_eq g P n ctx, PEval_zero_eq g Q m ctx, key]

theorem C8_partition_independence_witness :
    PEval gEx pEx 2 0 ctxEx = PEval gEx qEx 1 0 ctxEx :=
  C8_partition_independence gEx pEx qEx 2 1 ctxEx (by decide) (by decide)

/-- C9: the incremental phase is a no-op: the context is unchanged, no
messages are emitted, and the driver stops after exactly one incremental
synchronization round. -/
theorem C9_incremental_noop (ctx : Context) (fuel : Nat) (hf : 0 < fuel) :
    IncEval ctx = (ctx, []) ∧ driverLoop fuel ctx = (1, ctx) := by
  refine ⟨rfl, ?_⟩
  cases fuel with
  | zero => exact absurd hf (by omega)
  | succ f => rfl

theorem C9_incremental_noop_witness :
    IncEval ctxEx = (ctxEx, []) ∧ driverLoop 3 ctxEx = (1, ctxEx) :=
  C9_incremental_noop ctxEx 3 (by omega)

/-- C10: mode selection is decided by the resolved Subset-2 gid set, not by
the emptiness of the subset2 input: a non-empty subset2 input all of whose
identifiers fail translation behaves exactly as an absent subset2, so the
complement rule applies. -/
theorem C10_mode_by_resolved_set (g : Graph) (P : Fragmentation)
    (numFrags fid : Nat) (l : List Nat) (ctx : Context)
    (hl : l ≠ []) (ho : ∀ o ∈ l, g.oid2gid o = none) :
    ((PEval g P numFrags fid { ctx with nbunch2 := some l }).boundary =
      (PEval g P numFrags fid { ctx with nbunch2 := none }).boundary) ∧
    ((PEval g P numFrags fid { ctx with nbunch2 := some l }).data =
      (PEval g P numFrags fid { ctx with nbunch2 := none }).data) ∧
    ((PEval g P numFrags fid { ctx with nbunch2 := some l }).shape =
      (PEval g P numFrags fid { ctx with nbunch2 := none }).shape) := by
  have hres : resolve2 g (some l) = resolve2 g none := by
    show resolve g l = ∅
    exact resolve_all_none g l ho
  unfold PEval
  simp only [hres]
  by_cases hf : fid = 0 <;> simp [hf]

theorem C10_mode_by_resolved_set_witness :
    ((PEval gEx pEx 2 0 { ctxEx with nbunch2 := some [99] }).boundary =
      (PEval gEx pEx 2 0 { ctxEx with nbunch2 := none }).boundary) ∧
    ((PEval gEx pEx 2 0 { ctxEx with nbunch2 := some [99] }).data =
      (PEval gEx pEx 2 0 { ctxEx with nbunch2 := none }).data) ∧
    ((PEval gEx pEx 2 0 { ctxEx with nbunch2 := some [99] }).shape =
      (PEval gEx pEx 2 0 { ctxEx with nbunch2 := none }).shape) :=
  C10_mode_by_resolved_set gEx pEx 2 0 [99] ctxEx (by decide) (by decide)

end EdgeBoundary
